import Mathlib

/-!
# Verification of the RFC3164 syslog decoder

Shallow embedding of `src/parser.rs` and `src/message.rs` of
`rust-syslog-rfc3164`.  Input strings (`&str`) are modelled as `List Char`;
the parse state convention of the source ("rest" cursors) is kept.  The
system clock read (`time::now().tm_year`) is made an explicit parameter
`now_tm_year`.  Machine integers (`i32`, `i64`) are modelled as `Int` with
explicit range checks where the source performs them.
-/

namespace Syslog3164

/-- Error type, from `ParseErr` in `src/parser.rs`.  The payloads carrying
foreign error values (`Utf8Error`, `FromUtf8Error`, `ParseIntError`) are
dropped; the payload of `MonthConversionErr` (the offending token) is kept. -/
inductive ParseErr where
  | RegexDoesNotMatchErr
  | BadSeverityInPri
  | BadFacilityInPri
  | UnexpectedEndOfInput
  | MonthConversionErr (s : List Char)
  | TooFewDigits
  | TooManyDigits
  | InvalidUTCOffset
  | BaseUnicodeError
  | UnicodeError
  | ExpectedTokenErr (c : Char)
  | IntConversionErr
  | MissingField (s : List Char)
  deriving Repr, DecidableEq

/-- `type ParseResult<T> = Result<T, ParseErr>` -/
abbrev ParseResult (α : Type) := Except ParseErr α

/-- Modelled from the spec (§6): severity enumerators, domain 0-7.  The
repository file `src/severity.rs` is not part of the sources given; only
its interface contract (integer-to-enumerator lookup over 0-7) is specified. -/
inductive SyslogSeverity where
  | SEV_EMERG | SEV_ALERT | SEV_CRIT | SEV_ERR
  | SEV_WARNING | SEV_NOTICE | SEV_INFO | SEV_DEBUG
  deriving Repr, DecidableEq

/-- Modelled from the spec (§6): facility enumerators, domain 0-23. The
repository file `src/facility.rs` is not part of the sources given; only its
interface contract (integer-to-enumerator lookup over 0-23) is specified. -/
inductive SyslogFacility where
  | LOG_KERN | LOG_USER | LOG_MAIL | LOG_DAEMON | LOG_AUTH | LOG_SYSLOG
  | LOG_LPR | LOG_NEWS | LOG_UUCP | LOG_CRON | LOG_AUTHPRIV | LOG_FTP
  | LOG_NTP | LOG_AUDIT | LOG_ALERT | LOG_CLOCKD | LOG_LOCAL0 | LOG_LOCAL1
  | LOG_LOCAL2 | LOG_LOCAL3 | LOG_LOCAL4 | LOG_LOCAL5 | LOG_LOCAL6 | LOG_LOCAL7
  deriving Repr, DecidableEq

/-- Modelled from the spec (§6): integer-to-enumerator lookup for severity,
failing (`none`) outside the domain 0-7. -/
def SyslogSeverity.from_int (n : Int) : Option SyslogSeverity :=
  if n = 0 then some .SEV_EMERG
  else if n = 1 then some .SEV_ALERT
  else if n = 2 then some .SEV_CRIT
  else if n = 3 then some .SEV_ERR
  else if n = 4 then some .SEV_WARNING
  else if n = 5 then some .SEV_NOTICE
  else if n = 6 then some .SEV_INFO
  else if n = 7 then some .SEV_DEBUG
  else none

/-- Modelled from the spec (§6): enumerator-to-integer direction of the
severity lookup. -/
def SyslogSeverity.to_int : SyslogSeverity → Int
  | .SEV_EMERG => 0 | .SEV_ALERT => 1 | .SEV_CRIT => 2 | .SEV_ERR => 3
  | .SEV_WARNING => 4 | .SEV_NOTICE => 5 | .SEV_INFO => 6 | .SEV_DEBUG => 7

/-- Modelled from the spec (§6): integer-to-enumerator lookup for facility,
failing (`none`) outside the domain 0-23. -/
def SyslogFacility.from_int (n : Int) : Option SyslogFacility :=
  if n = 0 then some .LOG_KERN
  else if n = 1 then some .LOG_USER
  else if n = 2 then some .LOG_MAIL
  else if n = 3 then some .LOG_DAEMON
  else if n = 4 then some .LOG_AUTH
  else if n = 5 then some .LOG_SYSLOG
  else if n = 6 then some .LOG_LPR
  else if n = 7 then some .LOG_NEWS
  else if n = 8 then some .LOG_UUCP
  else if n = 9 then some .LOG_CRON
  else if n = 10 then some .LOG_AUTHPRIV
  else if n = 11 then some .LOG_FTP
  else if n = 12 then some .LOG_NTP
  else if n = 13 then some .LOG_AUDIT
  else if n = 14 then some .LOG_ALERT
  else if n = 15 then some .LOG_CLOCKD
  else if n = 16 then some .LOG_LOCAL0
  else if n = 17 then some .LOG_LOCAL1
  else if n = 18 then some .LOG_LOCAL2
  else if n = 19 then some .LOG_LOCAL3
  else if n = 20 then some .LOG_LOCAL4
  else if n = 21 then some .LOG_LOCAL5
  else if n = 22 then some .LOG_LOCAL6
  else if n = 23 then some .LOG_LOCAL7
  else none

/-- Modelled from the spec (§6): enumerator-to-integer direction of the
facility lookup. -/
def SyslogFacility.to_int : SyslogFacility → Int
  | .LOG_KERN => 0 | .LOG_USER => 1 | .LOG_MAIL => 2 | .LOG_DAEMON => 3
  | .LOG_AUTH => 4 | .LOG_SYSLOG => 5 | .LOG_LPR => 6 | .LOG_NEWS => 7
  | .LOG_UUCP => 8 | .LOG_CRON => 9 | .LOG_AUTHPRIV => 10 | .LOG_FTP => 11
  | .LOG_NTP => 12 | .LOG_AUDIT => 13 | .LOG_ALERT => 14 | .LOG_CLOCKD => 15
  | .LOG_LOCAL0 => 16 | .LOG_LOCAL1 => 17 | .LOG_LOCAL2 => 18 | .LOG_LOCAL3 => 19
  | .LOG_LOCAL4 => 20 | .LOG_LOCAL5 => 21 | .LOG_LOCAL6 => 22 | .LOG_LOCAL7 => 23

/-- `ProcIdType` from `src/message.rs`: a PID (`i32`) or an opaque name. -/
inductive ProcIdType where
  | PID (n : Int)
  | Name (s : List Char)
  deriving Repr, DecidableEq

/-- `SyslogMessage` from `src/message.rs`. -/
structure SyslogMessage where
  severity : SyslogSeverity
  facility : SyslogFacility
  version : Int
  timestamp : Option Int
  hostname : Option (List Char)
  proc_id : Option ProcIdType
  tag : Option (List Char)
  msg : List Char
  deriving Repr, DecidableEq

/-- The digit predicate of `parse_num`: `|c| c >= '0' && c <= '9'`
(Rust `char` comparison is by code point). -/
def isDigitC (c : Char) : Bool := decide (48 ≤ c.toNat ∧ c.toNat ≤ 57)

/-- The letter predicate of `parse_month`: `|c| c >= 'A' && c <= 'z'`. -/
def isMonthLetter (c : Char) : Bool := decide (65 ≤ c.toNat ∧ c.toNat ≤ 122)

/-- The printable-ASCII byte range `33..=126` that the token loops of
`parse_term` and `parse_hostname` accept (the negation of their terminator
test `*chr < 33 || *chr > 126`). -/
abbrev isPrintable (c : Char) : Prop := 33 ≤ c.toNat ∧ c.toNat ≤ 126

/-- The loop of `take_while` (`src/parser.rs` lines 91-104).  `acc` is the
prefix consumed so far (the source's `&input[..idx]`, with `idx = acc.length`;
within a matched run every char is single-byte ASCII for the predicates used,
so the source's byte index equals the char index).  Falling off the end of the
input returns `("", None)`, exactly as in the source. -/
def take_while_go (f : Char → Bool) (max_chars : Nat) (acc : List Char) :
    List Char → List Char × Option (List Char)
  | [] => ([], none)
  | c :: cs =>
    if ¬ f c then (acc, some (c :: cs))
    else if acc.length = max_chars then (acc, some (c :: cs))
    else take_while_go f max_chars (acc ++ [c]) cs

/-- `take_while` from `src/parser.rs`. -/
def take_while (input : List Char) (f : Char → Bool) (max_chars : Nat) :
    List Char × Option (List Char) :=
  take_while_go f max_chars [] input

/-- The numeric value of a decimal digit string. -/
def digitsNat (l : List Char) : Nat :=
  l.foldl (fun a c => a * 10 + (c.toNat - 48)) 0

/-- The digit-run part of `i32::from_str`: a nonempty all-digit string, with
the `i32` positive range check. -/
def digit_run_val (l : List Char) : Option Nat :=
  if l = [] then none
  else if l.all isDigitC then some (digitsNat l)
  else none

/-- `i32::from_str` on an arbitrary string (used on the process-id token):
optional sign, then a nonempty digit run, with the `i32` range check. -/
def i32_from_str_opt (l : List Char) : Option Int :=
  match l with
  | [] => none
  | c :: t =>
    if c = '+' then
      (digit_run_val t).bind fun n => if n ≤ 2147483647 then some (Int.ofNat n) else none
    else if c = '-' then
      (digit_run_val t).bind fun n => if n ≤ 2147483648 then some (-(Int.ofNat n)) else none
    else
      (digit_run_val (c :: t)).bind fun n => if n ≤ 2147483647 then some (Int.ofNat n) else none

/-- `i32::from_str(res).map_err(ParseErr::IntConversionErr)` as used in
`parse_num`. -/
def i32_from_str (l : List Char) : ParseResult Int :=
  match i32_from_str_opt l with
  | some n => .ok n
  | none => .error .IntConversionErr

/-- `parse_num` from `src/parser.rs` (lines 133-146). -/
def parse_num (s : List Char) (min_digits max_digits : Nat) :
    ParseResult (Int × List Char) :=
  match take_while s isDigitC max_digits with
  | (_, none) => .error .UnexpectedEndOfInput
  | (res, some rest) =>
    if res.length < min_digits then .error .TooFewDigits
    else if res.length > max_digits then .error .TooManyDigits
    else match i32_from_str res with
      | .error e => .error e
      | .ok n => .ok (n, rest)

/-- `parse_pri_val` from `src/parser.rs` (lines 106-110).  For `i32` values,
`pri & 0x7 = pri.emod 8` and the arithmetic shift `pri >> 3 = pri.ediv 8`. -/
def parse_pri_val (pri : Int) : ParseResult (SyslogSeverity × SyslogFacility) :=
  match SyslogSeverity.from_int (pri % 8) with
  | none => .error .BadSeverityInPri
  | some sev =>
    match SyslogFacility.from_int (pri / 8) with
    | none => .error .BadFacilityInPri
    | some fac => .ok (sev, fac)

/-- The month-name table of `parse_month` (`src/parser.rs` lines 116-130):
the source's `match res` over the twelve three-letter abbreviations, with
the fall-through arm producing `MonthConversionErr(res)`. -/
def month_num (res : List Char) : ParseResult Int :=
  if res = "Jan".toList then .ok 1
  else if res = "Feb".toList then .ok 2
  else if res = "Mar".toList then .ok 3
  else if res = "Apr".toList then .ok 4
  else if res = "May".toList then .ok 5
  else if res = "Jun".toList then .ok 6
  else if res = "Jul".toList then .ok 7
  else if res = "Aug".toList then .ok 8
  else if res = "Sep".toList then .ok 9
  else if res = "Oct".toList then .ok 10
  else if res = "Nov".toList then .ok 11
  else if res = "Dec".toList then .ok 12
  else .error (.MonthConversionErr res)

/-- `parse_month` from `src/parser.rs` (lines 112-131). -/
def parse_month (s : List Char) : ParseResult (Int × List Char) :=
  match take_while s isMonthLetter 3 with
  | (_, none) => .error .UnexpectedEndOfInput
  | (res, some rest) =>
    match month_num res with
    | .ok n => .ok (n, rest)
    | .error e => .error e

/-- UTF-8 encoding of one unicode scalar value, as a list of byte values. -/
def utf8EncodeChar (c : Char) : List Nat :=
  let n := c.toNat
  if n < 128 then [n]
  else if n < 2048 then [192 + n / 64, 128 + n % 64]
  else if n < 65536 then [224 + n / 4096, 128 + n / 64 % 64, 128 + n % 64]
  else [240 + n / 262144, 128 + n / 4096 % 64, 128 + n / 64 % 64, 128 + n % 64]

/-- State machine of the UTF-8 validator (what `str::from_utf8` checks):
`n` pending continuation bytes, of which the next must lie in `lo..=hi`
(the narrowed first-continuation ranges rule out overlong and surrogate
encodings).  ASCII bytes stand alone; lead bytes `0xC2..0xF4` start a
sequence; everything else at sequence start is invalid. -/
def utf8_valid_aux : Nat → Nat → Nat → List Nat → Bool
  | 0, _, _, [] => true
  | 0, _, _, b :: rest =>
    if b < 128 then utf8_valid_aux 0 128 191 rest
    else if b < 194 then false
    else if b < 224 then utf8_valid_aux 1 128 191 rest
    else if b = 224 then utf8_valid_aux 2 160 191 rest
    else if b = 237 then utf8_valid_aux 2 128 159 rest
    else if b < 240 then utf8_valid_aux 2 128 191 rest
    else if b = 240 then utf8_valid_aux 3 144 191 rest
    else if b < 244 then utf8_valid_aux 3 128 191 rest
    else if b = 244 then utf8_valid_aux 3 128 143 rest
    else false
  | _ + 1, _, _, [] => false
  | n + 1, lo, hi, b :: rest =>
    decide (lo ≤ b ∧ b ≤ hi) && utf8_valid_aux n 128 191 rest

/-- UTF-8 validity of a byte string. -/
def utf8_valid (bs : List Nat) : Bool := utf8_valid_aux 0 128 191 bs

/-- `str::from_utf8(bytes).map_err(ParseErr::BaseUnicodeError)`: the captured
chars stand for their UTF-8 bytes; validation succeeds exactly when those
bytes are valid UTF-8 (on success the same text is returned). -/
def from_utf8 (l : List Char) : ParseResult (List Char) :=
  if utf8_valid (l.map utf8EncodeChar).flatten then .ok l
  else .error .BaseUnicodeError

/-- The byte loop of `parse_term` (`src/parser.rs` lines 192-208).  `m` is
the whole input to `parse_term`, `acc` the bytes consumed so far (the
source's `&byte_ary[..idx]`, with `idx = acc.length`), and the last argument
the remaining suffix (`&m[idx..]`).  Every byte of a non-ASCII char is
outside `33..=126`, so the source's byte-wise test fires at the first byte
of such a char and every index the loop reaches is a char boundary; the loop
is therefore exactly a char-wise walk. -/
def term_loop (min_length max_length : Nat) (m : List Char) (acc : List Char) :
    List Char → ParseResult (Option (List Char) × List Char)
  | [] => .ok (none, m)
  | c :: cs =>
    if c.toNat < 33 ∨ 126 < c.toNat then
      if acc.length < min_length then .error .TooFewDigits
      else
        match from_utf8 acc with
        | .error e => .error e
        | .ok s => .ok (some s, c :: cs)
    else if max_length ≤ acc.length then
      match from_utf8 acc with
      | .error e => .error e
      | .ok s => .ok (some s, c :: cs)
    else term_loop min_length max_length m (acc ++ [c]) cs

/-- `parse_term` from `src/parser.rs` (lines 183-209). -/
def parse_term (m : List Char) (min_length max_length : Nat) :
    ParseResult (Option (List Char) × List Char) :=
  match m with
  | c :: t =>
    if c = '-' then .ok (none, t)
    else term_loop min_length max_length (c :: t) [] (c :: t)
  | [] => term_loop min_length max_length [] [] []

/-- The byte loop of `parse_hostname` (`src/parser.rs` lines 218-232), with
the same conventions as `term_loop`.  The hostname bounds are the source's
local `min_length = 1`, `max_length = 255`.  The source's first condition
`(*chr < 33 || *chr > 126) && (*chr != 91 || *chr == 93)` and second
condition `idx >= max_length || *chr == 91 || *chr == 93` are kept verbatim
(with `idx = acc.length`). -/
def hostname_loop (m : List Char) (acc : List Char) :
    List Char → ParseResult (Option (List Char) × List Char)
  | [] => .error .UnexpectedEndOfInput
  | c :: cs =>
    if (c.toNat < 33 ∨ 126 < c.toNat) ∧ (c.toNat ≠ 91 ∨ c.toNat = 93) then
      if acc.length < 1 then .error .TooFewDigits
      else
        match from_utf8 acc with
        | .error e => .error e
        | .ok s => .ok (some s, c :: cs)
    else if 255 ≤ acc.length ∨ c.toNat = 91 ∨ c.toNat = 93 then
      match from_utf8 acc with
      | .error e => .error e
      | .ok s => .ok (some s, c :: cs)
    else hostname_loop m (acc ++ [c]) cs

/-- `parse_hostname` from `src/parser.rs` (lines 211-233). -/
def parse_hostname (m : List Char) : ParseResult (Option (List Char) × List Char) :=
  match m with
  | c :: t =>
    if c = '-' then .ok (none, t)
    else hostname_loop (c :: t) [] (c :: t)
  | [] => hostname_loop [] [] []

/-- The calendar fields of the `time` crate's `Tm` that the source sets
(`time::empty_tm()` zero-initializes them). -/
structure Tm where
  tm_sec : Int
  tm_min : Int
  tm_hour : Int
  tm_mday : Int
  tm_mon : Int
  tm_year : Int
  deriving Repr, DecidableEq

/-- Modelled from the spec (§4.5): day count from civil date used by the
external time library to turn calendar fields into UTC epoch seconds
(`tm.to_utc().to_timespec().sec`); days since 1970-01-01 of year/month/day,
by the standard civil-from-days inverse (Gregorian calendar). -/
def days_from_civil (y m d : Int) : Int :=
  let ys := if m ≤ 2 then y - 1 else y
  let era := ys / 400
  let yoe := ys - era * 400
  let doy := (153 * ((m + 9) % 12) + 2) / 5 + d - 1
  let doe := yoe * 365 + yoe / 4 - yoe / 100 + doy
  era * 146097 + doe - 719468

/-- Modelled from the spec (§4.5): the external time library's conversion of
the composite calendar fields to a UTC epoch-seconds value, "using the given
year, month, day, hour, minute, second with no timezone offset applied"
(`tm_year` counts from 1900, `tm_mon` from 0, as in `struct tm`). -/
def tm_to_sec (tm : Tm) : Int :=
  days_from_civil (tm.tm_year + 1900) (tm.tm_mon + 1) tm.tm_mday * 86400
    + tm.tm_hour * 3600 + tm.tm_min * 60 + tm.tm_sec

/-- `take_char!` from `src/parser.rs` (lines 75-89). -/
def take_char (s : List Char) (c : Char) : ParseResult (List Char) :=
  match s with
  | [] => .error .UnexpectedEndOfInput
  | x :: t => if x = c then .ok t else .error (.ExpectedTokenErr c)

/-- `maybe_expect_char!` from `src/parser.rs` (lines 44-49). -/
def maybe_expect_char (s : List Char) (c : Char) : Option (List Char) :=
  match s with
  | x :: t => if x = c then some t else none
  | [] => none

/-- The month-through-seconds part of `parse_timestamp` (`src/parser.rs`
lines 155-166): the fields set on `tm` before the optional-year step
(`tm_year` still holds `empty_tm`'s zero). -/
def parse_ts_fields (m : List Char) : ParseResult (Tm × List Char) := do
  let (mon, rest) ← parse_month m
  let rest ← take_char rest ' '
  let rest := (maybe_expect_char rest ' ').getD rest
  let (mday, rest) ← parse_num rest 1 2
  let rest ← take_char rest ' '
  let (hour, rest) ← parse_num rest 2 2
  let rest ← take_char rest ':'
  let (minute, rest) ← parse_num rest 2 2
  let rest ← take_char rest ':'
  let (sec, rest) ← parse_num rest 2 2
  .ok ({ tm_sec := sec, tm_min := minute, tm_hour := hour,
         tm_mday := mday, tm_mon := mon - 1, tm_year := 0 }, rest)

/-- `parse_timestamp` from `src/parser.rs` (lines 148-181).  `now_tm_year`
is the value the source reads from the system clock (`time::now().tm_year`)
when the 4-digit year is absent. -/
def parse_timestamp (now_tm_year : Int) (m : List Char) :
    ParseResult (Option Int × List Char) :=
  match m with
  | c :: t =>
    if c = '-' then .ok (none, t)
    else
      match parse_ts_fields (c :: t) with
      | .error e => .error e
      | .ok (tm, rest) =>
        let maybe_rest := (maybe_expect_char rest ' ').getD rest
        match parse_num maybe_rest 4 4 with
        | .ok (year, maybe_rest2) =>
          .ok (some (tm_to_sec { tm with tm_year := year - 1900 }), maybe_rest2)
        | .error _ =>
          .ok (some (tm_to_sec { tm with tm_year := now_tm_year }), rest)
  | [] =>
    match parse_ts_fields [] with
    | .error e => .error e
    | .ok (tm, rest) =>
      let maybe_rest := (maybe_expect_char rest ' ').getD rest
      match parse_num maybe_rest 4 4 with
      | .ok (year, maybe_rest2) =>
        .ok (some (tm_to_sec { tm with tm_year := year - 1900 }), maybe_rest2)
      | .error _ =>
        .ok (some (tm_to_sec { tm with tm_year := now_tm_year }), rest)

/-- The process-id step of `parse_message_s` (`src/parser.rs` lines 251-264):
`maybe_take_item!(parse_hostname(rest), maybe_rest)` matched against
`Some(Some(token))`; on a captured token, `i32::from_str` picks `PID` or
`Name` and one trailing space is consumed; on anything else (`Ok(None)` from
a `-` placeholder, or an error) the cursor `rest` is left unchanged. -/
def proc_id_step (rest : List Char) : Option ProcIdType × List Char :=
  match parse_hostname rest with
  | .ok (some proc_id_r, maybe_rest) =>
    let v := match i32_from_str_opt proc_id_r with
      | some n => ProcIdType.PID n
      | none => ProcIdType.Name proc_id_r
    (some v, (maybe_expect_char maybe_rest ' ').getD maybe_rest)
  | _ => (none, rest)

/-- The tail of `parse_message_s` after the timestamp (`src/parser.rs`
lines 245-282): mandatory space, hostname, optional `[` and space, process
id, tag, optional space, and the remainder as the message body. -/
def finish_message (sev : SyslogSeverity) (fac : SyslogFacility)
    (timestamp : Option Int) (r0 : List Char) : ParseResult SyslogMessage := do
  let rest ← take_char r0 ' '
  let (hostname, rest) ← parse_hostname rest
  let rest := (maybe_expect_char rest '[').getD rest
  let rest := (maybe_expect_char rest ' ').getD rest
  let pr := proc_id_step rest
  let proc_id := pr.1
  let rest := pr.2
  let (tag, rest) ← parse_term rest 1 255
  let rest := (maybe_expect_char rest ' ').getD rest
  .ok { severity := sev, facility := fac, version := 0, timestamp := timestamp,
        hostname := hostname, proc_id := proc_id, tag := tag, msg := rest }

/-- `parse_message_s` from `src/parser.rs` (lines 235-283). -/
def parse_message_s (now_tm_year : Int) (m : List Char) : ParseResult SyslogMessage := do
  let rest ← take_char m '<'
  let (prival, rest) ← parse_num rest 1 3
  let rest ← take_char rest '>'
  let (sev, fac) ← parse_pri_val prival
  match parse_timestamp now_tm_year rest with
  | .error e => .error e
  | .ok (timestamp, rest) => finish_message sev fac timestamp rest

/-- `parse_message` from `src/parser.rs` (lines 304-306): the public entry
point; `s.as_ref()` is the string's char sequence. -/
def parse_message (now_tm_year : Int) (s : String) : ParseResult SyslogMessage :=
  parse_message_s now_tm_year s.toList

/-! ## Helper lemmas -/

theorem utf8_valid_of_ascii (bs : List Nat) (h : ∀ b ∈ bs, b < 128) :
    utf8_valid bs = true := by
  induction bs with
  | nil => rfl
  | cons b rest ih =>
    show utf8_valid_aux 0 128 191 (b :: rest) = true
    rw [utf8_valid_aux, if_pos (h b (List.mem_cons_self b rest))]
    exact ih fun x hx => h x (List.mem_cons_of_mem b hx)

theorem utf8EncodeChar_ascii (c : Char) (h : c.toNat < 128) :
    utf8EncodeChar c = [c.toNat] := by
  simp [utf8EncodeChar, h]

theorem from_utf8_ascii (l : List Char) (h : ∀ c ∈ l, c.toNat < 128) :
    from_utf8 l = .ok l := by
  have henc : (l.map utf8EncodeChar).flatten = l.map Char.toNat := by
    induction l with
    | nil => rfl
    | cons c t ih =>
      simp only [List.map_cons, List.flatten_cons,
        utf8EncodeChar_ascii c (h c (List.mem_cons_self c t)),
        ih fun x hx => h x (List.mem_cons_of_mem c hx)]
      rfl
  have hval : utf8_valid (l.map utf8EncodeChar).flatten = true := by
    rw [henc]
    exact utf8_valid_of_ascii _ (by simpa using h)
  simp [from_utf8, hval]

theorem from_utf8_printable (l : List Char) (h : ∀ c ∈ l, isPrintable c) :
    from_utf8 l = .ok l :=
  from_utf8_ascii l fun c hc => by have := h c hc; omega

theorem take_while_go_bound (f : Char → Bool) (ma : Nat) :
    ∀ (l acc : List Char), acc.length ≤ ma →
      ∀ res rest, take_while_go f ma acc l = (res, some rest) → res.length ≤ ma := by
  intro l
  induction l with
  | nil => intro acc _ res rest h; simp [take_while_go] at h
  | cons c cs ih =>
    intro acc hacc res rest h
    rw [take_while_go] at h
    by_cases hf : f c
    · rw [if_neg (by simp [hf])] at h
      by_cases hl : acc.length = ma
      · rw [if_pos hl] at h
        cases h; omega
      · rw [if_neg hl] at h
        exact ih (acc ++ [c]) (by simp; omega) res rest h
    · rw [if_pos (by simp [hf])] at h
      cases h; omega

theorem take_while_go_trunc (f : Char → Bool) (ma : Nat) :
    ∀ (ds acc : List Char) (c : Char) (rest : List Char),
      (∀ x ∈ ds, f x) → acc.length + ds.length = ma → f c →
      take_while_go f ma acc (ds ++ c :: rest) = (acc ++ ds, some (c :: rest)) := by
  intro ds
  induction ds with
  | nil =>
    intro acc c rest _ hlen hc
    rw [List.nil_append, take_while_go, if_neg (by simp [hc]),
      if_pos (by simpa using hlen)]
    simp
  | cons d ds' ih =>
    intro acc c rest hds hlen hc
    rw [List.cons_append, take_while_go,
      if_neg (by simp [hds d (List.mem_cons_self d ds')]),
      if_neg (by simp at hlen ⊢; omega)]
    have := ih (acc ++ [d]) c rest (fun x hx => hds x (List.mem_cons_of_mem d hx))
      (by simp at hlen ⊢; omega) hc
    rw [this]
    simp

theorem term_loop_eoi (mi ma : Nat) (m : List Char) :
    ∀ (l acc : List Char), (∀ c ∈ l, isPrintable c) → acc.length + l.length ≤ ma →
      term_loop mi ma m acc l = .ok (none, m) := by
  intro l
  induction l with
  | nil => intro acc _ _; rfl
  | cons c cs ih =>
    intro acc hl hlen
    have hc := hl c (List.mem_cons_self c cs)
    rw [term_loop, if_neg (by omega), if_neg (by simp at hlen; omega)]
    exact ih (acc ++ [c]) (fun x hx => hl x (List.mem_cons_of_mem c hx))
      (by simp at hlen ⊢; omega)

theorem term_loop_trunc (mi ma : Nat) (m : List Char) :
    ∀ (ds acc : List Char) (c : Char) (rest : List Char),
      (∀ x ∈ ds, isPrintable x) → (∀ x ∈ acc, isPrintable x) → isPrintable c →
      acc.length + ds.length = ma →
      term_loop mi ma m acc (ds ++ c :: rest) = .ok (some (acc ++ ds), c :: rest) := by
  intro ds
  induction ds with
  | nil =>
    intro acc c rest _ hacc hc hlen
    simp only [List.nil_append, List.length_nil, Nat.add_zero] at hlen ⊢
    rw [term_loop, if_neg (by omega), if_pos (by omega), from_utf8_printable acc hacc]
    simp
  | cons d ds' ih =>
    intro acc c rest hds hacc hc hlen
    have hd := hds d (List.mem_cons_self d ds')
    rw [List.cons_append, term_loop, if_neg (by omega),
      if_neg (by simp at hlen; omega)]
    have := ih (acc ++ [d]) c rest (fun x hx => hds x (List.mem_cons_of_mem d hx))
      (by intro x hx; rcases List.mem_append.mp hx with h | h
          · exact hacc x h
          · simp at h; subst h; exact hd)
      hc (by simp at hlen ⊢; omega)
    rw [this]
    simp

theorem term_loop_err (mi ma : Nat) (m : List Char) :
    ∀ (l acc : List Char), (∀ x ∈ acc, isPrintable x) →
      ∀ e, term_loop mi ma m acc l = .error e → e = .TooFewDigits := by
  intro l
  induction l with
  | nil => intro acc _ e h; simp [term_loop] at h
  | cons c cs ih =>
    intro acc hacc e h
    rw [term_loop] at h
    by_cases h1 : c.toNat < 33 ∨ 126 < c.toNat
    · rw [if_pos h1] at h
      by_cases h2 : acc.length < mi
      · rw [if_pos h2] at h
        exact (Except.error.injEq _ _ ▸ h).symm ▸ rfl
      · rw [if_neg h2, from_utf8_printable acc hacc] at h
        simp at h
    · rw [if_neg h1] at h
      by_cases h2 : ma ≤ acc.length
      · rw [if_pos h2, from_utf8_printable acc hacc] at h
        simp at h
      · rw [if_neg h2] at h
        exact ih (acc ++ [c])
          (by intro x hx; rcases List.mem_append.mp hx with hx | hx
              · exact hacc x hx
              · simp at hx; subst hx; constructor <;> omega)
          e h

theorem term_loop_ok_printable (mi ma : Nat) (m : List Char) :
    ∀ (l acc : List Char), (∀ x ∈ acc, isPrintable x) →
      ∀ tok r, term_loop mi ma m acc l = .ok (some tok, r) →
        ∀ x ∈ tok, isPrintable x := by
  intro l
  induction l with
  | nil => intro acc _ tok r h; simp [term_loop] at h
  | cons c cs ih =>
    intro acc hacc tok r h
    rw [term_loop] at h
    by_cases h1 : c.toNat < 33 ∨ 126 < c.toNat
    · rw [if_pos h1] at h
      by_cases h2 : acc.length < mi
      · rw [if_pos h2] at h; simp at h
      · rw [if_neg h2, from_utf8_printable acc hacc] at h
        simp at h
        obtain ⟨h3, _⟩ := h
        exact h3 ▸ hacc
    · rw [if_neg h1] at h
      by_cases h2 : ma ≤ acc.length
      · rw [if_pos h2, from_utf8_printable acc hacc] at h
        simp at h
        obtain ⟨h3, _⟩ := h
        exact h3 ▸ hacc
      · rw [if_neg h2] at h
        exact ih (acc ++ [c])
          (by intro x hx; rcases List.mem_append.mp hx with hx | hx
              · exact hacc x hx
              · simp at hx; subst hx; constructor <;> omega)
          tok r h

theorem hostname_loop_eoi (m : List Char) :
    ∀ (l acc : List Char),
      (∀ c ∈ l, isPrintable c ∧ c.toNat ≠ 91 ∧ c.toNat ≠ 93) →
      acc.length + l.length ≤ 255 →
      hostname_loop m acc l = .error .UnexpectedEndOfInput := by
  intro l
  induction l with
  | nil => intro acc _ _; rfl
  | cons c cs ih =>
    intro acc hl hlen
    obtain ⟨hc, hc91, hc93⟩ := hl c (List.mem_cons_self c cs)
    rw [hostname_loop, if_neg (by omega), if_neg (by simp at hlen; omega)]
    exact ih (acc ++ [c]) (fun x hx => hl x (List.mem_cons_of_mem c hx))
      (by simp at hlen ⊢; omega)

theorem hostname_loop_trunc (m : List Char) :
    ∀ (ds acc : List Char) (c : Char) (rest : List Char),
      (∀ x ∈ ds, isPrintable x ∧ x.toNat ≠ 91 ∧ x.toNat ≠ 93) →
      (∀ x ∈ acc, isPrintable x) → isPrintable c →
      acc.length + ds.length = 255 →
      hostname_loop m acc (ds ++ c :: rest) = .ok (some (acc ++ ds), c :: rest) := by
  intro ds
  induction ds with
  | nil =>
    intro acc c rest _ hacc hc hlen
    simp only [List.nil_append, List.length_nil, Nat.add_zero] at hlen ⊢
    rw [hostname_loop, if_neg (by omega), if_pos (Or.inl (by omega)),
      from_utf8_printable acc hacc]
    simp
  | cons d ds' ih =>
    intro acc c rest hds hacc hc hlen
    obtain ⟨hd, hd91, hd93⟩ := hds d (List.mem_cons_self d ds')
    rw [List.cons_append, hostname_loop, if_neg (by omega),
      if_neg (by simp at hlen; push_neg; exact ⟨by omega, hd91, hd93⟩)]
    have := ih (acc ++ [d]) c rest (fun x hx => hds x (List.mem_cons_of_mem d hx))
      (by intro x hx; rcases List.mem_append.mp hx with h | h
          · exact hacc x h
          · simp at h; subst h; exact hd)
      hc (by simp at hlen ⊢; omega)
    rw [this]
    simp

theorem hostname_loop_err (m : List Char) :
    ∀ (l acc : List Char), (∀ x ∈ acc, isPrintable x) →
      ∀ e, hostname_loop m acc l = .error e →
        e = .TooFewDigits ∨ e = .UnexpectedEndOfInput := by
  intro l
  induction l with
  | nil =>
    intro acc _ e h
    simp only [hostname_loop] at h
    exact Or.inr (Except.error.injEq _ _ ▸ h).symm
  | cons c cs ih =>
    intro acc hacc e h
    rw [hostname_loop] at h
    by_cases h1 : (c.toNat < 33 ∨ 126 < c.toNat) ∧ (c.toNat ≠ 91 ∨ c.toNat = 93)
    · rw [if_pos h1] at h
      by_cases h2 : acc.length < 1
      · rw [if_pos h2] at h
        exact Or.inl (Except.error.injEq _ _ ▸ h).symm
      · rw [if_neg h2, from_utf8_printable acc hacc] at h
        simp at h
    · rw [if_neg h1] at h
      by_cases h2 : 255 ≤ acc.length ∨ c.toNat = 91 ∨ c.toNat = 93
      · rw [if_pos h2, from_utf8_printable acc hacc] at h
        simp at h
      · rw [if_neg h2] at h
        push_neg at h1 h2
        exact ih (acc ++ [c])
          (by intro x hx; rcases List.mem_append.mp hx with hx | hx
              · exact hacc x hx
              · simp at hx; subst hx
                rcases Decidable.em (x.toNat < 33 ∨ 126 < x.toNat) with hp | hp
                · rcases h1 hp with ⟨h91, _⟩
                  exact absurd (h2.2.1) (by simp [h91])
                · push_neg at hp; exact ⟨hp.1, hp.2⟩)
          e h

theorem hostname_loop_ok_printable (m : List Char) :
    ∀ (l acc : List Char), (∀ x ∈ acc, isPrintable x) →
      ∀ tok r, hostname_loop m acc l = .ok (some tok, r) →
        ∀ x ∈ tok, isPrintable x := by
  intro l
  induction l with
  | nil => intro acc _ tok r h; simp [hostname_loop] at h
  | cons c cs ih =>
    intro acc hacc tok r h
    rw [hostname_loop] at h
    by_cases h1 : (c.toNat < 33 ∨ 126 < c.toNat) ∧ (c.toNat ≠ 91 ∨ c.toNat = 93)
    · rw [if_pos h1] at h
      by_cases h2 : acc.length < 1
      · rw [if_pos h2] at h; simp at h
      · rw [if_neg h2, from_utf8_printable acc hacc] at h
        simp at h
        obtain ⟨h3, _⟩ := h
        exact h3 ▸ hacc
    · rw [if_neg h1] at h
      by_cases h2 : 255 ≤ acc.length ∨ c.toNat = 91 ∨ c.toNat = 93
      · rw [if_pos h2, from_utf8_printable acc hacc] at h
        simp at h
        obtain ⟨h3, _⟩ := h
        exact h3 ▸ hacc
      · rw [if_neg h2] at h
        push_neg at h1 h2
        exact ih (acc ++ [c])
          (by intro x hx; rcases List.mem_append.mp hx with hx | hx
              · exact hacc x hx
              · simp at hx; subst hx
                rcases Decidable.em (x.toNat < 33 ∨ 126 < x.toNat) with hp | hp
                · rcases h1 hp with ⟨h91, _⟩
                  exact absurd (h2.2.1) (by simp [h91])
                · push_neg at hp; exact ⟨hp.1, hp.2⟩)
          tok r h

theorem i32_from_str_digits (ds : List Char) (hne : ds ≠ [])
    (hds : ∀ x ∈ ds, isDigitC x) (hbound : digitsNat ds ≤ 2147483647) :
    i32_from_str ds = .ok (Int.ofNat (digitsNat ds)) := by
  cases ds with
  | nil => exact absurd rfl hne
  | cons d t =>
    have hd := hds d (List.mem_cons_self d t)
    have hplus : d ≠ '+' := by rintro rfl; simp [isDigitC] at hd
    have hminus : d ≠ '-' := by rintro rfl; simp [isDigitC] at hd
    have hall : (d :: t).all isDigitC = true := List.all_eq_true.mpr hds
    rw [i32_from_str, i32_from_str_opt, if_neg hplus, if_neg hminus,
      digit_run_val, if_neg (by simp), if_pos hall]
    simp [hbound]

theorem sev_lookup (r : Int) (h0 : 0 ≤ r) (h1 : r ≤ 7) :
    ∃ s, SyslogSeverity.from_int r = some s ∧ s.to_int = r := by
  interval_cases r <;> exact ⟨_, rfl, rfl⟩

theorem fac_lookup (q : Int) (h0 : 0 ≤ q) (h1 : q ≤ 23) :
    ∃ f, SyslogFacility.from_int q = some f ∧ f.to_int = q := by
  interval_cases q <;> exact ⟨_, rfl, rfl⟩

theorem fac_from_int_none (q : Int) (h : 24 ≤ q) : SyslogFacility.from_int q = none := by
  simp only [SyslogFacility.from_int]
  repeat rw [if_neg (by omega)]

/-! ## Claim theorems -/

/-- C1: for every integer `N` with `0 ≤ N ≤ 191`, `parse_pri_val` (the
decoder of the priority field `<N>`) yields a severity `s` and facility `f`
with `f*8 + s = N` (`s` the low 3 bits, `f` the remaining bits); for every
`N ≥ 192` it fails with the facility-range error `BadFacilityInPri`. -/
theorem c1_pri_val (N : Int) :
    (0 ≤ N → N ≤ 191 →
      ∃ s f, parse_pri_val N = .ok (s, f) ∧
        f.to_int * 8 + s.to_int = N ∧ s.to_int = N % 8 ∧ f.to_int = N / 8) ∧
    (192 ≤ N → parse_pri_val N = .error .BadFacilityInPri) := by
  constructor
  · intro h0 h1
    obtain ⟨s, hs, hs2⟩ := sev_lookup (N % 8) (by omega) (by omega)
    obtain ⟨f, hf, hf2⟩ := fac_lookup (N / 8) (by omega) (by omega)
    exact ⟨s, f, by rw [parse_pri_val, hs, hf], by omega, hs2, hf2⟩
  · intro h
    obtain ⟨s, hs, _⟩ := sev_lookup (N % 8) (by omega) (by omega)
    rw [parse_pri_val, hs, fac_from_int_none (N / 8) (by omega)]

/-- C1 witness: `parse_pri_val` at the concrete priorities 78 and 192. -/
theorem c1_witness :
    (∃ s f, parse_pri_val 78 = .ok (s, f) ∧
      f.to_int * 8 + s.to_int = 78 ∧ s.to_int = 78 % 8 ∧ f.to_int = 78 / 8) ∧
    parse_pri_val 192 = .error .BadFacilityInPri :=
  ⟨(c1_pri_val 78).1 (by decide) (by decide), (c1_pri_val 192).2 (by decide)⟩

/-- C2: decoding the exact line
`<78>Jan  8 12:14:16 2017 host1[123] CROND some_message` succeeds with
facility cron, severity info, hostname `host1`, numeric process id 123,
message body `CROND some_message`, and timestamp 1483877656 UTC epoch
seconds (independent of the decode-time year, since the line carries a
year). -/
theorem c2_roundtrip_complex (y : Int) :
    parse_message y "<78>Jan  8 12:14:16 2017 host1[123] CROND some_message" =
      .ok { severity := .SEV_INFO, facility := .LOG_CRON, version := 0,
            timestamp := some 1483877656, hostname := some ("host1".toList),
            proc_id := some (.PID 123), tag := some ("]".toList),
            msg := ("CROND some_message".toList) } := rfl

/-- C3 counterexample: a `-` standing in place of the process-identifier
token yields an absent field but consumes NOTHING (the claim says it
consumes exactly the one placeholder character, which would leave
`" tag msg"`).  The unconsumed `-` is then swallowed by the tag parser, so
in the full decode of `<1>- host - tag msg` the tag comes out absent and
`tag msg` lands in the message body. -/
theorem c3_counterexample :
    proc_id_step ("- tag msg".toList) = (none, "- tag msg".toList) ∧
    proc_id_step ("- tag msg".toList) ≠ (none, " tag msg".toList) ∧
    parse_message_s 0 ("<1>- host - tag msg".toList) =
      .ok { severity := .SEV_ALERT, facility := .LOG_KERN, version := 0,
            timestamp := none, hostname := some ("host".toList), proc_id := none,
            tag := none, msg := ("tag msg".toList) } :=
  ⟨rfl, by decide, rfl⟩

/-- C3 amended: a literal `-` in place of the timestamp, the hostname, or
the tag yields "absent" for that field and consumes exactly the placeholder
character, whatever the rest of the line contains; in place of the
process-identifier token it also yields "absent", but consumes nothing (the
placeholder is left in the input for the tag parser). -/
theorem c3_placeholder_amended :
    (∀ (y : Int) (t : List Char), parse_timestamp y ('-' :: t) = .ok (none, t)) ∧
    (∀ t : List Char, parse_hostname ('-' :: t) = .ok (none, t)) ∧
    (∀ (t : List Char) (mi ma : Nat), parse_term ('-' :: t) mi ma = .ok (none, t)) ∧
    (∀ t : List Char, proc_id_step ('-' :: t) = (none, '-' :: t)) :=
  ⟨fun _ _ => rfl, fun _ => rfl, fun _ _ _ => rfl, fun _ => rfl⟩

/-- C7: the entry point is a total function: for every clock year and every
input string, `parse_message` returns either a decoded record or a decode
error. -/
theorem c7_total (y : Int) (s : String) :
    (∃ msg, parse_message y s = .ok msg) ∨ (∃ e, parse_message y s = .error e) := by
  cases h : parse_message y s with
  | error e => exact Or.inr ⟨e, rfl⟩
  | ok v => exact Or.inl ⟨v, rfl⟩

/-- C8 counterexample: `parse_num` on input `4096` with at most 3 digits
allowed does NOT fail with the too-many-digits error; it consumes exactly
3 digits and succeeds, leaving the fourth digit in the input. -/
theorem c8_counterexample :
    parse_num ("4096".toList) 1 3 = .ok (409, "6".toList) ∧
    parse_num ("4096".toList) 1 3 ≠ .error .TooManyDigits :=
  ⟨rfl, by
    intro h
    rw [show parse_num ("4096".toList) 1 3 = .ok (409, "6".toList) from rfl] at h
    exact Except.noConfusion h⟩

/-- C8 amended: `parse_num` never returns the too-many-digits error; when
the input begins with more digits than `max_digits`, the first `max_digits`
digits are consumed and parsed and the excess digits are left unconsumed
(the run is silently truncated to the maximum). -/
theorem c8_num_truncates_amended :
    (∀ (s : List Char) (mi ma : Nat), parse_num s mi ma ≠ .error .TooManyDigits) ∧
    (∀ (ds : List Char) (c : Char) (t : List Char) (mi ma : Nat),
      1 ≤ mi → mi ≤ ma → ds.length = ma → (∀ x ∈ ds, isDigitC x) → isDigitC c →
      digitsNat ds ≤ 2147483647 →
      parse_num (ds ++ c :: t) mi ma = .ok (Int.ofNat (digitsNat ds), c :: t)) := by
  constructor
  · intro s mi ma
    rw [parse_num]
    rcases h : take_while s isDigitC ma with ⟨res, orest⟩
    cases orest with
    | none => simp
    | some rest =>
      have hb : res.length ≤ ma :=
        take_while_go_bound isDigitC ma s [] (by simp) res rest h
      simp only
      split
      · simp
      · rw [if_neg (by omega)]
        rw [i32_from_str]
        cases i32_from_str_opt res <;> simp
  · intro ds c t mi ma hmi hma hlen hds hc hbound
    have hw : take_while (ds ++ c :: t) isDigitC ma = (ds, some (c :: t)) := by
      have := take_while_go_trunc isDigitC ma ds [] c t hds (by simpa using hlen) hc
      simpa [take_while] using this
    have hne : ds ≠ [] := by
      intro h'; rw [h'] at hlen; simp at hlen; omega
    rw [parse_num, hw]
    simp only
    rw [if_neg (by omega), if_neg (by omega),
      i32_from_str_digits ds hne hds hbound]

/-- C8 witness: the amended truncation behavior at a concrete over-long
digit run. -/
theorem c8_witness : parse_num ("123456".toList) 2 4 = .ok (1234, "56".toList) :=
  c8_num_truncates_amended.2 ("1234".toList) '5' ("6".toList) 2 4
    (by decide) (by decide) (by decide) (by decide) (by decide) (by decide)

set_option maxRecDepth 4000 in
/-- C5 counterexample: a 256-byte printable token is NOT rejected by the
tag/term parser — it is truncated to its first 255 bytes with the 256th
byte left unconsumed; and a 0-byte capture before a `[` terminator in the
hostname parser is NOT rejected as too-short — it yields an empty token
with nothing consumed. -/
theorem c5_counterexample :
    parse_term (List.replicate 256 'a') 1 255 =
      .ok (some (List.replicate 255 'a'), ['a']) ∧
    parse_hostname ('[' :: 'h' :: []) = .ok (some [], ['[', 'h']) :=
  ⟨by rfl, rfl⟩

/-- C5 amended: a hostname, tag, or process-identifier token of 256 or more
printable bytes is truncated at the 255-byte bound (the first 255 bytes are
returned and the rest left unconsumed), not rejected; a 0-byte capture
before a non-printable terminator fails with the too-short error, while a
0-byte capture before a bracket terminator in the hostname parser yields an
empty token without consuming it. -/
theorem c5_bounded_tokens_amended :
    (∀ (p : Char) (pre : List Char) (c : Char) (rest : List Char),
      p ≠ '-' → isPrintable p → (∀ x ∈ pre, isPrintable x) →
      pre.length = 254 → isPrintable c →
      parse_term (p :: pre ++ c :: rest) 1 255 = .ok (some (p :: pre), c :: rest)) ∧
    (∀ (p : Char) (pre : List Char) (c : Char) (rest : List Char),
      p ≠ '-' → isPrintable p → p.toNat ≠ 91 → p.toNat ≠ 93 →
      (∀ x ∈ pre, isPrintable x ∧ x.toNat ≠ 91 ∧ x.toNat ≠ 93) →
      pre.length = 254 → isPrintable c →
      parse_hostname (p :: pre ++ c :: rest) = .ok (some (p :: pre), c :: rest)) ∧
    (∀ (c : Char) (rest : List Char) (mi ma : Nat),
      (c.toNat < 33 ∨ 126 < c.toNat) → 1 ≤ mi →
      parse_term (c :: rest) mi ma = .error .TooFewDigits ∧
      parse_hostname (c :: rest) = .error .TooFewDigits) ∧
    (∀ rest : List Char,
      parse_hostname ('[' :: rest) = .ok (some [], '[' :: rest) ∧
      parse_hostname (']' :: rest) = .ok (some [], ']' :: rest)) := by
  refine ⟨?_, ?_, ?_, ?_⟩
  · intro p pre c rest hne hp hpre hlen hc
    rw [List.cons_append, parse_term, if_neg hne]
    have := term_loop_trunc 1 255 (p :: (pre ++ c :: rest)) (p :: pre) [] c rest
      (by intro x hx; rcases List.mem_cons.mp hx with h | h
          · exact h ▸ hp
          · exact hpre x h)
      (by simp) hc (by simp [hlen])
    simpa using this
  · intro p pre c rest hne hp h91 h93 hpre hlen hc
    rw [List.cons_append, parse_hostname, if_neg hne]
    have := hostname_loop_trunc (p :: (pre ++ c :: rest)) (p :: pre) [] c rest
      (by intro x hx; rcases List.mem_cons.mp hx with h | h
          · exact h ▸ ⟨hp, h91, h93⟩
          · exact hpre x h)
      (by simp) hc (by simp [hlen])
    simpa using this
  · intro c rest mi ma hnp hmi
    have hne : c ≠ '-' := by rintro rfl; exact absurd hnp (by decide)
    constructor
    · rw [parse_term, if_neg hne, term_loop, if_pos hnp, if_pos (by simpa using hmi)]
    · rw [parse_hostname, if_neg hne, hostname_loop,
        if_pos ⟨hnp, Or.inl (by omega)⟩, if_pos (by simp)]
  · intro rest
    exact ⟨rfl, rfl⟩

/-- C5 witness: the amended claim applied at concrete inputs — a 0-byte
capture before a space fails too-short in both token parsers. -/
theorem c5_witness :
    parse_term (' ' :: "x".toList) 1 255 = .error .TooFewDigits ∧
    parse_hostname (' ' :: "x".toList) = .error .TooFewDigits :=
  c5_bounded_tokens_amended.2.2.1 ' ' ("x".toList) 1 255 (by decide) (by decide)

/-- C6 counterexample: when the tag parser's printable run reaches the end
of input it is NOT accepted as a valid full-length token; the parse
succeeds but yields an absent tag and consumes nothing. -/
theorem c6_counterexample :
    parse_term ("tag".toList) 1 255 = .ok (none, "tag".toList) ∧
    parse_term ("tag".toList) 1 255 ≠ .ok (some ("tag".toList), []) :=
  ⟨rfl, by
    intro h
    rw [show parse_term ("tag".toList) 1 255 = .ok (none, "tag".toList) from rfl] at h
    simp at h⟩

/-- C6 amended: end-of-input handling is asymmetric between the two token
parsers: a printable run (no brackets, within the 255 bound) reaching the
very end of input makes `parse_hostname` fail with unexpected-end-of-input,
while `parse_term` accepts without error — but yields the absent token with
nothing consumed, rather than a captured full-length token. -/
theorem c6_eoi_asymmetry_amended :
    (∀ m : List Char, m.head? ≠ some '-' →
      (∀ c ∈ m, isPrintable c ∧ c.toNat ≠ 91 ∧ c.toNat ≠ 93) → m.length ≤ 255 →
      parse_hostname m = .error .UnexpectedEndOfInput) ∧
    (∀ (m : List Char) (mi ma : Nat), m.head? ≠ some '-' →
      (∀ c ∈ m, isPrintable c) → m.length ≤ ma →
      parse_term m mi ma = .ok (none, m)) := by
  constructor
  · intro m hhead hm hlen
    cases m with
    | nil => rfl
    | cons c t =>
      have hne : c ≠ '-' := by simpa using hhead
      rw [parse_hostname, if_neg hne]
      exact hostname_loop_eoi (c :: t) (c :: t) [] hm (by simpa using hlen)
  · intro m mi ma hhead hm hlen
    cases m with
    | nil => rfl
    | cons c t =>
      have hne : c ≠ '-' := by simpa using hhead
      rw [parse_term, if_neg hne]
      exact term_loop_eoi mi ma (c :: t) (c :: t) [] hm (by simpa using hlen)

/-- C6 witness: the asymmetry at concrete all-printable inputs reaching end
of input. -/
theorem c6_witness :
    parse_hostname ("host".toList) = .error .UnexpectedEndOfInput ∧
    parse_term ("tagx".toList) 1 255 = .ok (none, "tagx".toList) :=
  ⟨c6_eoi_asymmetry_amended.1 ("host".toList) (by decide) (by decide) (by decide),
   c6_eoi_asymmetry_amended.2 ("tagx".toList) 1 255 (by decide) (by decide) (by decide)⟩

theorem days_from_civil_year_succ (y m d : Int) :
    days_from_civil y m d + 365 ≤ days_from_civil (y + 1) m d := by
  simp only [days_from_civil]
  split_ifs with h <;> omega

theorem tm_to_sec_year_ne (tm : Tm) (y : Int) :
    tm_to_sec { tm with tm_year := y } ≠ tm_to_sec { tm with tm_year := y + 1 } := by
  have hd := days_from_civil_year_succ (y + 1900) (tm.tm_mon + 1) tm.tm_mday
  simp only [tm_to_sec]
  have h2 : y + 1 + 1900 = y + 1900 + 1 := by ring
  rw [h2]
  intro heq
  omega

/-- C4: for every timestamp field that parses through the seconds
(`parse_ts_fields` succeeds), if a 4-digit year follows (after an optional
space) it is used and the result is the same for every decode-time year;
if the year parse fails, the decoder substitutes the decode-time year
`y`, and the resulting epoch value genuinely depends on it: decoding with
clock year `y + 1` gives a different result than with `y`. -/
theorem c4_year_fallback (y : Int) (m : List Char) (tm : Tm) (rest : List Char)
    (hf : parse_ts_fields m = .ok (tm, rest)) :
    (∀ yr r2, parse_num ((maybe_expect_char rest ' ').getD rest) 4 4 = .ok (yr, r2) →
      parse_timestamp y m = .ok (some (tm_to_sec { tm with tm_year := yr - 1900 }), r2) ∧
      ∀ y', parse_timestamp y' m = parse_timestamp y m) ∧
    (∀ e, parse_num ((maybe_expect_char rest ' ').getD rest) 4 4 = .error e →
      parse_timestamp y m = .ok (some (tm_to_sec { tm with tm_year := y }), rest) ∧
      parse_timestamp (y + 1) m ≠ parse_timestamp y m) := by
  cases m with
  | nil =>
    rw [show parse_ts_fields ([] : List Char) = .error .UnexpectedEndOfInput from rfl] at hf
    exact Except.noConfusion hf
  | cons c t =>
    by_cases hc : c = '-'
    · subst hc
      rw [show parse_ts_fields ('-' :: t) = .error (.MonthConversionErr []) from rfl] at hf
      exact Except.noConfusion hf
    · constructor
      · intro yr r2 hyr
        constructor
        · simp [parse_timestamp, hc, hf, hyr]
        · intro y'
          simp [parse_timestamp, hc, hf, hyr]
      · intro e he
        constructor
        · simp [parse_timestamp, hc, hf, he]
        · have h1 : parse_timestamp (y + 1) (c :: t) =
              .ok (some (tm_to_sec { tm with tm_year := y + 1 }), rest) := by
            simp [parse_timestamp, hc, hf, he]
          have h2 : parse_timestamp y (c :: t) =
              .ok (some (tm_to_sec { tm with tm_year := y }), rest) := by
            simp [parse_timestamp, hc, hf, he]
          rw [h1, h2]
          intro heq
          simp at heq
          exact tm_to_sec_year_ne tm y heq.symm

/-- C4 witness: the concrete year-less timestamp `Jan 8 12:14:16 x`
decoded with clock years 117 and 118 (1900-based) gives the fallback value
for the clock year, and the two results differ. -/
theorem c4_witness :
    parse_timestamp 117 ("Jan 8 12:14:16 x".toList) =
      .ok (some (tm_to_sec
        { tm_sec := 16, tm_min := 14, tm_hour := 12,
          tm_mday := 8, tm_mon := 0, tm_year := 117 }), " x".toList) ∧
    parse_timestamp 118 ("Jan 8 12:14:16 x".toList) ≠
      parse_timestamp 117 ("Jan 8 12:14:16 x".toList) := by
  have h := c4_year_fallback 117 ("Jan 8 12:14:16 x".toList)
    { tm_sec := 16, tm_min := 14, tm_hour := 12, tm_mday := 8, tm_mon := 0, tm_year := 0 }
    (" x".toList) (by rfl)
  have h2 := h.2 .TooFewDigits (by rfl)
  exact ⟨h2.1, h2.2⟩

theorem ok_bind {α β : Type} (a : α) (f : α → ParseResult β) :
    (Except.ok a >>= f : ParseResult β) = f a := rfl

theorem bind_err {α β : Type} (x : ParseResult α) (f : α → ParseResult β)
    (e : ParseErr) (h : (x >>= f) = .error e) :
    x = .error e ∨ ∃ a, x = .ok a ∧ f a = .error e := by
  cases x with
  | error e' =>
    left
    have h' : (Except.error e' : ParseResult β) = .error e := h
    injection h' with h''
    rw [h'']
  | ok a => exact Or.inr ⟨a, rfl, h⟩

theorem take_char_no_uni (s : List Char) (c : Char) (e : ParseErr)
    (h : take_char s c = .error e) :
    e ≠ .BaseUnicodeError ∧ e ≠ .UnicodeError := by
  cases s with
  | nil =>
    have h' : (Except.error ParseErr.UnexpectedEndOfInput :
        ParseResult (List Char)) = .error e := h
    injection h' with h''
    simp [← h'']
  | cons x t =>
    by_cases hx : x = c
    · rw [take_char.eq_def] at h
      simp only [if_pos hx] at h
      exact absurd h (by simp)
    · rw [take_char.eq_def] at h
      simp only [if_neg hx] at h
      injection h with h''
      simp [← h'']

theorem i32_from_str_err (l : List Char) (e : ParseErr)
    (h : i32_from_str l = .error e) : e = .IntConversionErr := by
  rw [i32_from_str.eq_def] at h
  rcases ho : i32_from_str_opt l with _ | n
  · rw [ho] at h
    have h' : (Except.error ParseErr.IntConversionErr : ParseResult Int) = .error e := h
    injection h' with h''
    exact h''.symm
  · rw [ho] at h
    exact absurd (show (Except.ok n : ParseResult Int) = .error e from h) (by simp)

theorem parse_num_no_uni (s : List Char) (mi ma : Nat) (e : ParseErr)
    (h : parse_num s mi ma = .error e) :
    e ≠ .BaseUnicodeError ∧ e ≠ .UnicodeError := by
  rw [parse_num] at h
  rcases hw : take_while s isDigitC ma with ⟨res, orest⟩
  rw [hw] at h
  cases orest with
  | none =>
    have h' : (Except.error ParseErr.UnexpectedEndOfInput :
        ParseResult (Int × List Char)) = .error e := h
    injection h' with h''
    simp [← h'']
  | some rest =>
    simp at h
    split_ifs at h with h1 h2
    · injection h with h''
      simp [← h'']
    · injection h with h''
      simp [← h'']
    · rcases hi : i32_from_str res with e2 | n
      · rw [hi] at h
        have h' : (Except.error e2 : ParseResult (Int × List Char)) = .error e := h
        injection h' with h''
        have := i32_from_str_err res e2 hi
        simp [← h'', this]
      · rw [hi] at h
        exact absurd (show (Except.ok (n, rest) :
          ParseResult (Int × List Char)) = .error e from h) (by simp)

theorem month_num_cases (res : List Char) :
    (∃ n, month_num res = .ok n) ∨ month_num res = .error (.MonthConversionErr res) := by
  rw [month_num]
  by_cases h1 : res = "Jan".toList
  · rw [if_pos h1]; exact Or.inl ⟨_, rfl⟩
  · rw [if_neg h1]
    by_cases h2 : res = "Feb".toList
    · rw [if_pos h2]; exact Or.inl ⟨_, rfl⟩
    · rw [if_neg h2]
      by_cases h3 : res = "Mar".toList
      · rw [if_pos h3]; exact Or.inl ⟨_, rfl⟩
      · rw [if_neg h3]
        by_cases h4 : res = "Apr".toList
        · rw [if_pos h4]; exact Or.inl ⟨_, rfl⟩
        · rw [if_neg h4]
          by_cases h5 : res = "May".toList
          · rw [if_pos h5]; exact Or.inl ⟨_, rfl⟩
          · rw [if_neg h5]
            by_cases h6 : res = "Jun".toList
            · rw [if_pos h6]; exact Or.inl ⟨_, rfl⟩
            · rw [if_neg h6]
              by_cases h7 : res = "Jul".toList
              · rw [if_pos h7]; exact Or.inl ⟨_, rfl⟩
              · rw [if_neg h7]
                by_cases h8 : res = "Aug".toList
                · rw [if_pos h8]; exact Or.inl ⟨_, rfl⟩
                · rw [if_neg h8]
                  by_cases h9 : res = "Sep".toList
                  · rw [if_pos h9]; exact Or.inl ⟨_, rfl⟩
                  · rw [if_neg h9]
                    by_cases h10 : res = "Oct".toList
                    · rw [if_pos h10]; exact Or.inl ⟨_, rfl⟩
                    · rw [if_neg h10]
                      by_cases h11 : res = "Nov".toList
                      · rw [if_pos h11]; exact Or.inl ⟨_, rfl⟩
                      · rw [if_neg h11]
                        by_cases h12 : res = "Dec".toList
                        · rw [if_pos h12]; exact Or.inl ⟨_, rfl⟩
                        · rw [if_neg h12]
                          exact Or.inr rfl

theorem parse_month_no_uni (s : List Char) (e : ParseErr)
    (h : parse_month s = .error e) :
    e ≠ .BaseUnicodeError ∧ e ≠ .UnicodeError := by
  rw [parse_month] at h
  rcases hw : take_while s isMonthLetter 3 with ⟨res, orest⟩
  rw [hw] at h
  cases orest with
  | none =>
    have h' : (Except.error ParseErr.UnexpectedEndOfInput :
        ParseResult (Int × List Char)) = .error e := h
    injection h' with h''
    simp [← h'']
  | some rest =>
    have h0 : (match month_num res with
        | Except.ok n => (Except.ok (n, rest) : ParseResult (Int × List Char))
        | Except.error e2 => Except.error e2) = .error e := h
    rcases hm : month_num res with e2 | n
    · rw [hm] at h0
      have h' : (Except.error e2 : ParseResult (Int × List Char)) = .error e := h0
      injection h' with h''
      have he2 : e2 = .MonthConversionErr res := by
        rcases month_num_cases res with ⟨n, hn⟩ | hn
        · rw [hn] at hm
          exact absurd hm (by simp)
        · rw [hn] at hm
          injection hm with hm2
          exact hm2.symm
      simp [← h'', he2]
    · rw [hm] at h0
      exact absurd (show (Except.ok (n, rest) :
        ParseResult (Int × List Char)) = .error e from h0) (by simp)

theorem parse_term_no_uni (m : List Char) (mi ma : Nat) (e : ParseErr)
    (h : parse_term m mi ma = .error e) :
    e ≠ .BaseUnicodeError ∧ e ≠ .UnicodeError := by
  cases m with
  | nil => simp [parse_term, term_loop] at h
  | cons c t =>
    rw [parse_term] at h
    by_cases hc : c = '-'
    · rw [if_pos hc] at h; simp at h
    · rw [if_neg hc] at h
      have := term_loop_err mi ma (c :: t) (c :: t) [] (by simp) e h
      simp [this]

theorem parse_hostname_no_uni (m : List Char) (e : ParseErr)
    (h : parse_hostname m = .error e) :
    e ≠ .BaseUnicodeError ∧ e ≠ .UnicodeError := by
  cases m with
  | nil =>
    rw [show parse_hostname [] = .error .UnexpectedEndOfInput from rfl] at h
    simp at h; simp [← h]
  | cons c t =>
    rw [parse_hostname] at h
    by_cases hc : c = '-'
    · rw [if_pos hc] at h; simp at h
    · rw [if_neg hc] at h
      rcases hostname_loop_err (c :: t) (c :: t) [] (by simp) e h with h1 | h1 <;>
        simp [h1]

theorem parse_ts_fields_no_uni (m : List Char) (e : ParseErr)
    (h : parse_ts_fields m = .error e) :
    e ≠ .BaseUnicodeError ∧ e ≠ .UnicodeError := by
  rw [parse_ts_fields] at h
  rcases bind_err _ _ _ h with h1 | ⟨⟨mon, r⟩, _, h⟩
  · exact parse_month_no_uni m e h1
  rcases bind_err _ _ _ h with h1 | ⟨r2, _, h⟩
  · exact take_char_no_uni r ' ' e h1
  rcases bind_err _ _ _ h with h1 | ⟨⟨mday, r3⟩, _, h⟩
  · exact parse_num_no_uni _ 1 2 e h1
  rcases bind_err _ _ _ h with h1 | ⟨r4, _, h⟩
  · exact take_char_no_uni r3 ' ' e h1
  rcases bind_err _ _ _ h with h1 | ⟨⟨hour, r5⟩, _, h⟩
  · exact parse_num_no_uni r4 2 2 e h1
  rcases bind_err _ _ _ h with h1 | ⟨r6, _, h⟩
  · exact take_char_no_uni r5 ':' e h1
  rcases bind_err _ _ _ h with h1 | ⟨⟨minute, r7⟩, _, h⟩
  · exact parse_num_no_uni r6 2 2 e h1
  rcases bind_err _ _ _ h with h1 | ⟨r8, _, h⟩
  · exact take_char_no_uni r7 ':' e h1
  rcases bind_err _ _ _ h with h1 | ⟨⟨sec, r9⟩, _, h⟩
  · exact parse_num_no_uni r8 2 2 e h1
  simp at h

theorem parse_timestamp_no_uni (y : Int) (m : List Char) (e : ParseErr)
    (h : parse_timestamp y m = .error e) :
    e ≠ .BaseUnicodeError ∧ e ≠ .UnicodeError := by
  cases m with
  | nil =>
    have h' : (Except.error ParseErr.UnexpectedEndOfInput :
        ParseResult (Option Int × List Char)) = .error e := h
    injection h' with h''
    simp [← h'']
  | cons c t =>
    by_cases hc : c = '-'
    · subst hc
      exact absurd (show (Except.ok ((none : Option Int), t) :
        ParseResult (Option Int × List Char)) = .error e from h) (by simp)
    · rcases hf : parse_ts_fields (c :: t) with e' | ⟨tm, rest⟩
      · have he : e' = e := by
          have h2 := h
          simp [parse_timestamp, hc, hf] at h2
          exact h2
        exact he ▸ parse_ts_fields_no_uni (c :: t) e' hf
      · rcases hpn : parse_num ((maybe_expect_char rest ' ').getD rest) 4 4 with e2 | ⟨yr, r2⟩
        · simp [parse_timestamp, hc, hf, hpn] at h
        · simp [parse_timestamp, hc, hf, hpn] at h

theorem finish_message_no_uni (sev : SyslogSeverity) (fac : SyslogFacility)
    (ts : Option Int) (r0 : List Char) (e : ParseErr)
    (h : finish_message sev fac ts r0 = .error e) :
    e ≠ .BaseUnicodeError ∧ e ≠ .UnicodeError := by
  rw [finish_message] at h
  rcases bind_err _ _ _ h with h1 | ⟨r1, _, h⟩
  · exact take_char_no_uni r0 ' ' e h1
  rcases bind_err _ _ _ h with h1 | ⟨⟨hn, r2⟩, _, h⟩
  · exact parse_hostname_no_uni r1 e h1
  rcases bind_err _ _ _ h with h1 | ⟨⟨tag, r3⟩, _, h⟩
  · exact parse_term_no_uni _ 1 255 e h1
  simp at h

theorem parse_message_s_no_uni (y : Int) (m : List Char) (e : ParseErr)
    (h : parse_message_s y m = .error e) :
    e ≠ .BaseUnicodeError ∧ e ≠ .UnicodeError := by
  rw [parse_message_s] at h
  rcases bind_err _ _ _ h with h1 | ⟨r1, _, h⟩
  · exact take_char_no_uni m '<' e h1
  rcases bind_err _ _ _ h with h1 | ⟨⟨pv, r2⟩, _, h⟩
  · exact parse_num_no_uni r1 1 3 e h1
  rcases bind_err _ _ _ h with h1 | ⟨r3, _, h⟩
  · exact take_char_no_uni r2 '>' e h1
  rcases bind_err _ _ _ h with h1 | ⟨⟨sev, fac⟩, _, h⟩
  · rw [parse_pri_val] at h1
    rcases hs : SyslogSeverity.from_int (pv % 8) with _ | sv
    · rw [hs] at h1
      have h' : (Except.error ParseErr.BadSeverityInPri :
          ParseResult (SyslogSeverity × SyslogFacility)) = .error e := h1
      injection h' with h''
      simp [← h'']
    · rw [hs] at h1
      rcases hfc : SyslogFacility.from_int (pv / 8) with _ | fc
      · rw [hfc] at h1
        have h' : (Except.error ParseErr.BadFacilityInPri :
            ParseResult (SyslogSeverity × SyslogFacility)) = .error e := h1
        injection h' with h''
        simp [← h'']
      · rw [hfc] at h1
        exact absurd (show (Except.ok (sv, fc) :
          ParseResult (SyslogSeverity × SyslogFacility)) = .error e from h1) (by simp)
  · rcases hts : parse_timestamp y r3 with e' | ⟨ts, rr⟩
    · have he : e' = e := by
        rw [hts] at h
        have h' : (Except.error e' : ParseResult SyslogMessage) = .error e := h
        injection h'
      exact he ▸ parse_timestamp_no_uni y r3 e' hts
    · rw [hts] at h
      exact finish_message_no_uni sev fac ts rr e h

/-- C9: the encoding errors are unreachable.  Every token captured by the
tag/term parser or the hostname parser consists only of printable-ASCII
chars (byte range 33-126), so the UTF-8 validation of the captured bytes
always succeeds; and for every decode-time year and input, `parse_message_s`
never returns the byte-level (`BaseUnicodeError`) or string-level
(`UnicodeError`) unicode-decode errors. -/
theorem c9_no_unicode_errors :
    (∀ (m : List Char) (mi ma : Nat) (tok r : List Char),
      parse_term m mi ma = .ok (some tok, r) → ∀ c ∈ tok, isPrintable c) ∧
    (∀ m tok r : List Char,
      parse_hostname m = .ok (some tok, r) → ∀ c ∈ tok, isPrintable c) ∧
    (∀ (y : Int) (m : List Char),
      parse_message_s y m ≠ .error .BaseUnicodeError ∧
      parse_message_s y m ≠ .error .UnicodeError) := by
  refine ⟨?_, ?_, ?_⟩
  · intro m mi ma tok r h
    cases m with
    | nil => simp [parse_term, term_loop] at h
    | cons c t =>
      rw [parse_term] at h
      by_cases hc : c = '-'
      · rw [if_pos hc] at h; simp at h
      · rw [if_neg hc] at h
        exact term_loop_ok_printable mi ma (c :: t) (c :: t) [] (by simp) tok r h
  · intro m tok r h
    cases m with
    | nil => simp [parse_hostname, hostname_loop] at h
    | cons c t =>
      rw [parse_hostname] at h
      by_cases hc : c = '-'
      · rw [if_pos hc] at h; simp at h
      · rw [if_neg hc] at h
        exact hostname_loop_ok_printable (c :: t) (c :: t) [] (by simp) tok r h
  · intro y m
    constructor
    · intro h
      exact absurd rfl (parse_message_s_no_uni y m _ h).1
    · intro h
      exact absurd rfl (parse_message_s_no_uni y m _ h).2

/-- C9 witness: a captured concrete token is printable, and a concrete
decode never returns the unicode errors. -/
theorem c9_witness :
    (∀ c ∈ ("ab".toList), isPrintable c) ∧
    parse_message_s 0 ("<1>x".toList) ≠ .error .BaseUnicodeError :=
  ⟨c9_no_unicode_errors.1 ("ab ".toList) 1 255 ("ab".toList) (" ".toList) (by rfl),
   (c9_no_unicode_errors.2.2 0 ("<1>x".toList)).1⟩

theorem parse_timestamp_clock_irrelevant (y1 y2 : Int) (ts : List Char)
    (hts : (∃ t, ts = '-' :: t) ∨ (∃ e, parse_ts_fields ts = .error e) ∨
      (∃ tm rest yr r4, parse_ts_fields ts = .ok (tm, rest) ∧
        parse_num ((maybe_expect_char rest ' ').getD rest) 4 4 = .ok (yr, r4))) :
    parse_timestamp y1 ts = parse_timestamp y2 ts := by
  cases ts with
  | nil => rfl
  | cons c t =>
    by_cases hc : c = '-'
    · subst hc; rfl
    · rcases hts with ⟨t', ht'⟩ | ⟨e, he⟩ | ⟨tm, rest, yr, r4, hf, hyr⟩
      · exact absurd (List.cons.injEq .. ▸ ht').1 hc
      · simp [parse_timestamp, hc, he]
      · simp [parse_timestamp, hc, hf, hyr]

/-- C10: the decoder reads the clock only in the missing-year fallback.
For every input whose timestamp field (the cursor after the `<digits>`
priority) is the `-` placeholder, or fails to parse before the year
position, or carries an explicit 4-digit year, `parse_message_s` yields the
same result for any two decode-time years. -/
theorem c10_clock_determinism (y1 y2 : Int) (m r1 : List Char) (pv : Int)
    (r2 ts : List Char)
    (h1 : take_char m '<' = .ok r1) (h2 : parse_num r1 1 3 = .ok (pv, r2))
    (h3 : take_char r2 '>' = .ok ts)
    (hts : (∃ t, ts = '-' :: t) ∨ (∃ e, parse_ts_fields ts = .error e) ∨
      (∃ tm rest yr r4, parse_ts_fields ts = .ok (tm, rest) ∧
        parse_num ((maybe_expect_char rest ' ').getD rest) 4 4 = .ok (yr, r4))) :
    parse_message_s y1 m = parse_message_s y2 m := by
  have hkey := parse_timestamp_clock_irrelevant y1 y2 ts hts
  rw [parse_message_s, parse_message_s, h1, ok_bind, ok_bind, h2]
  simp only [ok_bind]
  rw [h3]
  simp only [ok_bind, hkey]

/-- C10 witness: the all-placeholder line decodes identically under two
different clock years. -/
theorem c10_witness :
    parse_message_s 0 ("<1>- - - - - -".toList) =
      parse_message_s 100 ("<1>- - - - - -".toList) :=
  c10_clock_determinism 0 100 ("<1>- - - - - -".toList) ("1>- - - - - -".toList) 1
    (">- - - - - -".toList) ("- - - - - -".toList) rfl rfl rfl
    (Or.inl ⟨(" - - - - -".toList), rfl⟩)

end Syslog3164
